import Mathlib

/-!
Verification development for the natural-language specification of
`src/cadquery/occ_impl/solver.py` (class `ConstraintSolver`).

Numeric model: every field operation of the source is carried out in exact
rational arithmetic (`ℚ`); the single irrational operation, `gp_XYZ.Modulus`
(the Euclidean norm used by the point-coincidence residual), is modelled via
`Real.sqrt` applied to the rational squared norm.  Python raises
`ZeroDivisionError` when a float division has a zero denominator, so the one
division in the source whose denominator can vanish (`(1 - w) / (1 + w)` in
`_locToDOF6`) is modelled fallibly with `Except`; the divisions in
`_build_transform` are either guarded by the source (`m != 0`) or have the
denominator `m + 1 ≥ 1` and are modelled with total rational division.

The geometry kernel (`OCP.gp`) and the least-squares routine
(`scipy.optimize.least_squares`) are external collaborators of the core and
are not part of the repository; they are modelled from the specification's
boundary descriptions (spec sections 3 and 6), with each such definition
carrying a comment saying so.
-/

namespace ConstraintSolver

/-- Coordinate triple; models `gp_XYZ` coordinates of `gp_Pnt` / `gp_Dir` /
`gp_Vec` values (geometry-kernel collaborator, spec section 6). -/
structure V3 where
  x : ℚ
  y : ℚ
  z : ℚ
  deriving DecidableEq

/-- Quaternion with components in the kernel's `(x, y, z, w)` order; models
`gp_Quaternion` (spec sections 3 and 6). -/
structure Quat where
  x : ℚ
  y : ℚ
  z : ℚ
  w : ℚ
  deriving DecidableEq

/-- Modelled from the spec: the kernel's rigid transform (`gp_Trsf`), carrying
a translation vector and a rotation quaternion (spec section 6: a transform is
constructed from an explicit translation vector and quaternion, and exposes
both).  `Location` values wrap such a transform, so poses are also represented
by this type. -/
structure Trsf where
  v : V3
  q : Quat
  deriving DecidableEq

/-- Square norm of a quaternion (`gp_Quaternion.SquareNorm`). -/
def squareNorm (q : Quat) : ℚ :=
  q.x ^ 2 + q.y ^ 2 + q.z ^ 2 + q.w ^ 2

/-- Modelled from the spec: the rotation action of a quaternion, as the
geometry kernel applies it to point and direction coordinates (spec sections 3
and 6).  The kernel builds the rotation matrix with the scale factor
`s = 2 / ‖q‖²`, so the action is invariant under nonzero scaling of the
quaternion, and for a unit quaternion (the spec's pose representation, section
3) it is the standard quaternion rotation matrix. -/
def rotApply (q : Quat) (p : V3) : V3 :=
  let n2 := squareNorm q
  let s : ℚ := if n2 = 0 then 0 else 2 / n2
  let xs := q.x * s
  let ys := q.y * s
  let zs := q.z * s
  let xx := q.x * xs
  let xy := q.x * ys
  let xz := q.x * zs
  let yy := q.y * ys
  let yz := q.y * zs
  let zz := q.z * zs
  let wx := q.w * xs
  let wy := q.w * ys
  let wz := q.w * zs
  ⟨(1 - (yy + zz)) * p.x + (xy - wz) * p.y + (xz + wy) * p.z,
   (xy + wz) * p.x + (1 - (xx + zz)) * p.y + (yz - wx) * p.z,
   (xz - wy) * p.x + (yz + wx) * p.y + (1 - (xx + yy)) * p.z⟩

/-- Modelled from the spec: transforming a point (`gp_Pnt.Transformed`) by a
rigid transform applies the rotation and then the translation (spec section
6). -/
def pntTransformed (t : Trsf) (p : V3) : V3 :=
  let r := rotApply t.q p
  ⟨r.x + t.v.x, r.y + t.v.y, r.z + t.v.z⟩

/-- Modelled from the spec: transforming a direction (`gp_Dir.Transformed`)
applies only the rotation part of a rigid transform (spec section 6: for
directions the transform acts as a rotation). -/
def dirTransformed (t : Trsf) (d : V3) : V3 :=
  rotApply t.q d

/-- Componentwise difference of coordinate triples (`gp_XYZ` subtraction). -/
def xyzSub (u v : V3) : V3 :=
  ⟨u.x - v.x, u.y - v.y, u.z - v.z⟩

/-- Dot product of coordinate triples (`gp_Dir` dot product, the kernel's
`operator*` between two directions). -/
def dot (u v : V3) : ℚ :=
  u.x * v.x + u.y * v.y + u.z * v.z

/-- Euclidean norm of a coordinate triple (`gp_XYZ.Modulus`). -/
noncomputable def modulus (u : V3) : ℝ :=
  Real.sqrt ((u.x ^ 2 + u.y ^ 2 + u.z ^ 2 : ℚ) : ℝ)

/-- Euclidean distance between two coordinate triples, written the way the
spec describes the point-coincidence residual (section 4.3): the distance
between the two world-space points. -/
noncomputable def euclDist (u v : V3) : ℝ :=
  Real.sqrt (((u.x - v.x) ^ 2 + (u.y - v.y) ^ 2 + (u.z - v.z) ^ 2 : ℚ) : ℝ)

/-- The 6-parameter pose encoding of the source (`DOF6`): translation
components and the scaled projection of the rotation quaternion. -/
structure DOF6 where
  x : ℚ
  y : ℚ
  z : ℚ
  a : ℚ
  b : ℚ
  c : ℚ
  deriving DecidableEq

/-- Errors the Python source can raise while the solver runs:
`zeroDivision` models `ZeroDivisionError` (a float division whose denominator
is exactly zero), `notImplemented` models the explicit
`raise NotImplementedError` of `_cost` (the spec's MarkerKindMismatch),
`typeError` models a kernel-binding type error (an operation applied to an
argument of the wrong kernel type), and `indexError` models an out-of-range
Python list index. -/
inductive PyErr where
  | zeroDivision
  | notImplemented
  | typeError
  | indexError
  deriving DecidableEq

/-- Embedding of `ConstraintSolver._locToDOF6` (solver.py lines 34-46).  The
input transform exposes its translation part and rotation quaternion; the
division computing `alpha_2` raises `ZeroDivisionError` when `1 + w = 0`
(Python float division by zero raises rather than producing a non-finite
value), and the remaining operations are exact. -/
def locToDOF6 (loc : Trsf) : Except PyErr DOF6 :=
  if 1 + loc.q.w = 0 then .error .zeroDivision
  else
    let alpha_2 := (1 - loc.q.w) / (1 + loc.q.w)
    let a := (alpha_2 + 1) * loc.q.x / 2
    let b := (alpha_2 + 1) * loc.q.y / 2
    let c := (alpha_2 + 1) * loc.q.z / 2
    .ok ⟨loc.v.x, loc.v.y, loc.v.z, a, b, c⟩

/-- Embedding of `ConstraintSolver._build_transform` (solver.py lines 58-75).
The translation is set from `(x, y, z)` and the rotation from the quaternion
`(2a/m if m ≠ 0 else 0, 2b/m if m ≠ 0 else 0, 2c/m if m ≠ 0 else 0,
(1-m)/(m+1))` with `m = a² + b² + c²`.  The division by `m` is guarded by the
source's `m != 0` test and the denominator `m + 1` of the `w` component is at
least `1` (a sum of squares plus one), so no division here can raise and the
definition is total. -/
def build_transform (x y z a b c : ℚ) : Trsf :=
  let m := a ^ 2 + b ^ 2 + c ^ 2
  { v := ⟨x, y, z⟩
    q := ⟨if m ≠ 0 then 2 * a / m else 0,
          if m ≠ 0 then 2 * b / m else 0,
          if m ≠ 0 then 2 * c / m else 0,
          (1 - m) / (m + 1)⟩ }

/-- One slice-assignment `rv[i, lo:hi] = val` on a matrix represented as a
function of (row, column). -/
def setRowSlice (M : ℕ → ℕ → ℚ) (i lo hi : ℕ) (val : ℚ) : ℕ → ℕ → ℚ :=
  fun r c => if r = i ∧ lo ≤ c ∧ c < hi then val else M r c

/-- The loop body of `ConstraintSolver._jacobianSparsity` (solver.py lines
52-54): `for i, (k1, k2) in enumerate(...)` performs, at row `i`, the two
slice assignments `rv[i, 6*k1 : 6*(k1+1)] = 1` and
`rv[i, 6*k2 : 6*(k2+1)] = 1`. -/
def sparsityLoop (M : ℕ → ℕ → ℚ) (i : ℕ) : List (ℕ × ℕ) → (ℕ → ℕ → ℚ)
  | [] => M
  | (k1, k2) :: rest =>
      sparsityLoop
        (setRowSlice (setRowSlice M i (6 * k1) (6 * (k1 + 1)) 1)
          i (6 * k2) (6 * (k2 + 1)) 1)
        (i + 1) rest

/-- Embedding of `ConstraintSolver._jacobianSparsity` (solver.py lines
48-56): start from the `zeros((nc, 6*ne))` matrix and run the enumerated
loop over the constraint keys (iteration order of the constraint mapping).
The matrix is represented as a total function of (row, column); its shape is
expressed by the theorems stating that entries outside `(nc, 6*ne)` are
zero. -/
def jacobianSparsity (ks : List (ℕ × ℕ)) : ℕ → ℕ → ℚ :=
  sparsityLoop (fun _ _ => 0) 0 ks

/-- A constraint marker of the source: `ConstraintMarker = Union[gp_Dir,
gp_Pnt]`.  Python is dynamically typed and `_cost` defends (its `else`
branch) against a value of any other type, so the model carries an `other`
constructor for a marker that is neither a point nor a direction. -/
inductive Marker where
  | pnt (p : V3)
  | dir (d : V3)
  | other
  deriving DecidableEq

/-- A constraint of the source: an entity-index pair `(k1, k2)` keying two
marker sequences `(ms1, ms2)`.  The constraint mapping is iterated in
insertion order (spec section 3), so it is modelled as the ordered list of
its key-value pairs. -/
abbrev Constraint := (ℕ × ℕ) × (List Marker × List Marker)

/-- One marker pair's contribution inside the `_cost` inner loop (solver.py
lines 93-101).  The source dispatches on `isinstance(m1, ...)` — on the FIRST
marker only:
with `m1` a point the branch computes
`(m1.Transformed(t1).XYZ() - m2.Transformed(t2).XYZ()).Modulus()`, and a
direction `m2` also supports `Transformed` and `XYZ` (kernel collaborator,
spec section 6), so a (point, direction) pair is accepted silently with the
direction contributing its rotated coordinates;
with `m1` a direction the branch computes
`m1.Transformed(t1) * m2.Transformed(t2)`, and the kernel's direction dot
product is defined only between two directions (spec section 6), so any other
`m2` is a binding type error;
with `m1` of any other type the source raises `NotImplementedError`. -/
noncomputable def pairTerm (t1 t2 : Trsf) : Marker → Marker → Except PyErr ℝ
  | .pnt p1, .pnt p2 =>
      .ok (modulus (xyzSub (pntTransformed t1 p1) (pntTransformed t2 p2)))
  | .pnt p1, .dir d2 =>
      .ok (modulus (xyzSub (pntTransformed t1 p1) (dirTransformed t2 d2)))
  | .pnt _, .other => .error .typeError
  | .dir d1, .dir d2 =>
      .ok ((dot (dirTransformed t1 d1) (dirTransformed t2 d2) : ℚ) : ℝ)
  | .dir _, _ => .error .typeError
  | .other, _ => .error .notImplemented

/-- The value `pairTerm` yields when it does not raise; used to state the
residual formulas. -/
noncomputable def termOf (t1 t2 : Trsf) : Marker → Marker → ℝ
  | .pnt p1, .pnt p2 =>
      modulus (xyzSub (pntTransformed t1 p1) (pntTransformed t2 p2))
  | .pnt p1, .dir d2 =>
      modulus (xyzSub (pntTransformed t1 p1) (dirTransformed t2 d2))
  | .dir d1, .dir d2 =>
      ((dot (dirTransformed t1 d1) (dirTransformed t2 d2) : ℚ) : ℝ)
  | _, _ => 0

/-- The accumulation `rv[i] += ...` of `_cost`'s inner loop over
`zip(ms1, ms2)` (solver.py lines 93-101), with the running value of `rv[i]`
as the accumulator; the first raising pair aborts the evaluation. -/
noncomputable def sumTerms (t1 t2 : Trsf) : ℝ → List (Marker × Marker) → Except PyErr ℝ
  | acc, [] => .ok acc
  | acc, (m1, m2) :: rest =>
      match pairTerm t1 t2 m1 m2 with
      | .ok val => sumTerms t1 t2 (acc + val) rest
      | .error e => .error e

/-- Sequentially evaluate one fallible row value per list element, stopping
at the first raised error — the shape of `_cost`'s outer loop filling
`rv = zeros(nc)` row by row. -/
def rowsOf {α β : Type} (f : α → Except PyErr β) : List α → Except PyErr (List β)
  | [] => .ok []
  | c :: rest =>
      match f c with
      | .ok r =>
          match rowsOf f rest with
          | .ok rs => .ok (r :: rs)
          | .error e => .error e
      | .error e => .error e

/-- The transform the cost function builds for entity `i` from the parameter
vector: `self._build_transform(*x[6*i : 6*(i+1)])` (solver.py line 86). -/
def entityTransform (x : ℕ → ℚ) (i : ℕ) : Trsf :=
  build_transform (x (6 * i)) (x (6 * i + 1)) (x (6 * i + 2))
    (x (6 * i + 3)) (x (6 * i + 4)) (x (6 * i + 5))

/-- One row of the residual: look up `transforms[k1]` and `transforms[k2]`
(a Python list index out of range raises `IndexError`) and run the inner
loop over the zipped marker sequences (solver.py lines 89-101). -/
noncomputable def costRow (transforms : List Trsf) (c : Constraint) : Except PyErr ℝ :=
  match transforms.get? c.1.1, transforms.get? c.1.2 with
  | some t1, some t2 => sumTerms t1 t2 0 (c.2.1.zip c.2.2)
  | _, _ => .error .indexError

/-- Embedding of the residual function returned by `ConstraintSolver._cost`
(solver.py lines 77-105): build the list of entity transforms from the
parameter vector, then produce one scalar residual per constraint, in the
mapping's iteration order. -/
noncomputable def cost (ne : ℕ) (cs : List Constraint) (x : ℕ → ℚ) : Except PyErr (List ℝ) :=
  rowsOf (costRow ((List.range ne).map (entityTransform x))) cs

/-- Component access of a `DOF6` in its tuple order, used to model `ravel`. -/
def dofComp (d : DOF6) : ℕ → ℚ
  | 0 => d.x
  | 1 => d.y
  | 2 => d.z
  | 3 => d.a
  | 4 => d.b
  | 5 => d.c
  | _ => 0

/-- The flat initial vector `x0 = array([el for el in self.entities]).ravel()`
(solver.py line 109): entity `j / 6`'s DOF6 component `j % 6`, in entity
order. -/
def ravel (dofs : List DOF6) : ℕ → ℚ :=
  fun j => dofComp (dofs.getD (j / 6) ⟨0, 0, 0, 0, 0, 0⟩) (j % 6)

/-- The constructor `ConstraintSolver.__init__` (solver.py lines 23-32)
decodes every supplied initial pose with `_locToDOF6`, in order; the first
raising pose aborts construction. -/
def decodeAll : List Trsf → Except PyErr (List DOF6)
  | [] => .ok []
  | loc :: rest =>
      match locToDOF6 loc with
      | .ok d =>
          match decodeAll rest with
          | .ok ds => .ok (d :: ds)
          | .error e => .error e
      | .error e => .error e

/-- The type of the external least-squares routine as the spec's boundary
describes it (section 6): it receives the residual function, the initial
vector and the sparsity pattern, and produces a final parameter vector; an
error raised by a residual evaluation it performs propagates. -/
abbrev Optimizer :=
  ((ℕ → ℚ) → Except PyErr (List ℝ)) → (ℕ → ℚ) → (ℕ → ℕ → ℚ) → Except PyErr (ℕ → ℚ)

/-- Embedding of `ConstraintSolver.solve` (solver.py lines 107-117) around
`ConstraintSolver.__init__`: decode the initial poses, build `x0` and the
sparsity pattern, run the external least-squares routine on the residual
function, and decode every 6-slice of the final vector back into a
transform.  Modelled from the spec: the external routine evaluates the
residual at the initial guess before iterating (spec sections 4.4 and 7:
a residual error is raised synchronously, before any optimizer iteration
completes, and propagates out of `solve`); its further iteration is the
`opt` argument. -/
noncomputable def solve (opt : Optimizer) (entities : List Trsf) (cs : List Constraint) :
    Except PyErr (List Trsf) :=
  match decodeAll entities with
  | .error e => .error e
  | .ok dofs =>
      let ne := entities.length
      let x0 := ravel dofs
      let sp := jacobianSparsity (cs.map Prod.fst)
      match cost ne cs x0 with
      | .error e => .error e
      | .ok _ =>
          match opt (cost ne cs) x0 sp with
          | .error e => .error e
          | .ok xr => .ok ((List.range ne).map fun i => entityTransform xr i)

/-- Kind agreement of a marker pair as the spec demands it (section 3):
point with point, or direction with direction. -/
def kindOK : Marker → Marker → Bool
  | .pnt _, .pnt _ => true
  | .dir _, .dir _ => true
  | _, _ => false

/-- Marker pairs on which `_cost`'s dispatch raises nothing: the source
checks only `m1`, so (point, direction) is also accepted. -/
def kindSafe : Marker → Marker → Bool
  | .pnt _, .pnt _ => true
  | .pnt _, .dir _ => true
  | .dir _, .dir _ => true
  | _, _ => false

/-- Data invariant of spec section 3 restricted to the zipped marker pairs:
entity indices in range and paired kinds equal. -/
def WellFormed (ne : ℕ) (cs : List Constraint) : Prop :=
  ∀ c ∈ cs, c.1.1 < ne ∧ c.1.2 < ne ∧ ∀ p ∈ c.2.1.zip c.2.2, kindOK p.1 p.2 = true

/-- Constraint sets on which residual evaluation raises nothing: indices in
range and every zipped pair accepted by `_cost`'s one-sided dispatch. -/
def SafeDispatch (ne : ℕ) (cs : List Constraint) : Prop :=
  ∀ c ∈ cs, c.1.1 < ne ∧ c.1.2 < ne ∧ ∀ p ∈ c.2.1.zip c.2.2, kindSafe p.1 p.2 = true

/-- The residual value of one constraint when nothing raises: the sum over
the zipped marker pairs of the pair terms, the transforms decoded from the
parameter vector's entity slices. -/
noncomputable def rowValue (x : ℕ → ℚ) (c : Constraint) : ℝ :=
  ((c.2.1.zip c.2.2).map
    (fun p => termOf (entityTransform x c.1.1) (entityTransform x c.1.2) p.1 p.2)).sum

/-- Spec-side per-pair residual term, following the words of spec section
4.3: a point pair contributes the Euclidean distance between the two
world-space points, a direction pair contributes the raw dot product of the
two rotated directions. -/
noncomputable def specTerm (t1 t2 : Trsf) : Marker → Marker → ℝ
  | .pnt p1, .pnt p2 => euclDist (pntTransformed t1 p1) (pntTransformed t2 p2)
  | .dir d1, .dir d2 =>
      ((dot (dirTransformed t1 d1) (dirTransformed t2 d2) : ℚ) : ℝ)
  | _, _ => 0

end ConstraintSolver

namespace ConstraintSolver

theorem pairTerm_safe (t1 t2 : Trsf) (m1 m2 : Marker) (h : kindSafe m1 m2 = true) :
    pairTerm t1 t2 m1 m2 = .ok (termOf t1 t2 m1 m2) := by
  cases m1 <;> cases m2 <;> simp_all [kindSafe, pairTerm, termOf]

theorem sumTerms_ok (t1 t2 : Trsf) (l : List (Marker × Marker)) (acc : ℝ)
    (h : ∀ p ∈ l, kindSafe p.1 p.2 = true) :
    sumTerms t1 t2 acc l = .ok (acc + (l.map fun p => termOf t1 t2 p.1 p.2).sum) := by
  induction l generalizing acc with
  | nil => simp [sumTerms]
  | cons p rest ih =>
      have hp := h p (List.mem_cons_self p rest)
      have hr : ∀ q ∈ rest, kindSafe q.1 q.2 = true := fun q hq => h q (List.mem_cons_of_mem p hq)
      obtain ⟨m1, m2⟩ := p
      simp only [sumTerms, pairTerm_safe t1 t2 m1 m2 hp, ih (acc + termOf t1 t2 m1 m2) hr,
        List.map_cons, List.sum_cons]
      ring_nf

theorem rowsOf_ok {α β : Type} (f : α → Except PyErr β) (g : α → β) (l : List α)
    (h : ∀ c ∈ l, f c = .ok (g c)) : rowsOf f l = .ok (l.map g) := by
  induction l with
  | nil => simp [rowsOf]
  | cons c rest ih =>
      have hc := h c (List.mem_cons_self c rest)
      have hr := ih fun d hd => h d (List.mem_cons_of_mem c hd)
      simp [rowsOf, hc, hr]

theorem range_map_get (ne k : ℕ) (f : ℕ → Trsf) (h : k < ne) :
    ((List.range ne).map f).get? k = some (f k) := by
  rw [List.get?_map, List.get?_range h]
  rfl

theorem cost_ok (ne : ℕ) (cs : List Constraint) (x : ℕ → ℚ)
    (h : SafeDispatch ne cs) : cost ne cs x = .ok (cs.map (rowValue x)) := by
  unfold cost
  apply rowsOf_ok
  intro c hc
  obtain ⟨h1, h2, h3⟩ := h c hc
  unfold costRow rowValue
  rw [range_map_get _ _ _ h1, range_map_get _ _ _ h2]
  exact sumTerms_ok _ _ _ 0 h3 |>.trans (by rw [zero_add])

end ConstraintSolver

namespace ConstraintSolver

theorem sparsityLoop_lower (ks : List (ℕ × ℕ)) (M : ℕ → ℕ → ℚ) (i r c : ℕ) (h : r < i) :
    sparsityLoop M i ks r c = M r c := by
  induction ks generalizing M i with
  | nil => rfl
  | cons p rest ih =>
      obtain ⟨k1, k2⟩ := p
      rw [sparsityLoop, ih _ _ (Nat.lt_succ_of_lt h)]
      simp [setRowSlice, Nat.ne_of_lt h]

theorem sparsityLoop_untouched (ks : List (ℕ × ℕ)) (M : ℕ → ℕ → ℚ) (i r c : ℕ)
    (h : i + ks.length ≤ r) : sparsityLoop M i ks r c = M r c := by
  induction ks generalizing M i with
  | nil => rfl
  | cons p rest ih =>
      obtain ⟨k1, k2⟩ := p
      rw [sparsityLoop, ih]
      · have : r ≠ i := by simp at h; omega
        simp [setRowSlice, this]
      · simp at h ⊢; omega

theorem sparsityLoop_get (ks : List (ℕ × ℕ)) (M : ℕ → ℕ → ℚ) (i d c k1 k2 : ℕ)
    (h : ks.get? d = some (k1, k2)) :
    sparsityLoop M i ks (i + d) c =
      if (6 * k1 ≤ c ∧ c < 6 * (k1 + 1)) ∨ (6 * k2 ≤ c ∧ c < 6 * (k2 + 1)) then 1
      else M (i + d) c := by
  induction ks generalizing M i d with
  | nil => simp at h
  | cons p rest ih =>
      obtain ⟨j1, j2⟩ := p
      cases d with
      | zero =>
          simp only [List.get?, Option.some.injEq, Prod.mk.injEq] at h
          obtain ⟨h1, h2⟩ := h
          subst h1; subst h2
          rw [Nat.add_zero, sparsityLoop, sparsityLoop_lower _ _ _ _ _ (Nat.lt_succ_self i)]
          by_cases hb2 : 6 * j2 ≤ c ∧ c < 6 * (j2 + 1) <;>
            by_cases hb1 : 6 * j1 ≤ c ∧ c < 6 * (j1 + 1) <;>
              simp [setRowSlice, hb1, hb2]
      | succ d =>
          simp only [List.get?] at h
          have hrw : i + (d + 1) = (i + 1) + d := by omega
          rw [sparsityLoop, hrw, ih _ _ _ h]
          have hne : i + 1 + d ≠ i := by omega
          simp [setRowSlice, hne]

theorem jacobianSparsity_row (ks : List (ℕ × ℕ)) (r c k1 k2 : ℕ)
    (h : ks.get? r = some (k1, k2)) :
    jacobianSparsity ks r c =
      if (6 * k1 ≤ c ∧ c < 6 * (k1 + 1)) ∨ (6 * k2 ≤ c ∧ c < 6 * (k2 + 1)) then 1
      else 0 := by
  have hh := sparsityLoop_get ks (fun _ _ => 0) 0 r c k1 k2 h
  rw [Nat.zero_add] at hh
  exact hh

theorem jacobianSparsity_zero_row (ks : List (ℕ × ℕ)) (r c : ℕ) (h : ks.length ≤ r) :
    jacobianSparsity ks r c = 0 :=
  sparsityLoop_untouched ks _ 0 r c (by omega)

theorem jacobianSparsity_row_sum (ks : List (ℕ × ℕ)) (ne r k1 k2 : ℕ)
    (h : ks.get? r = some (k1, k2)) (h1 : k1 < ne) (h2 : k2 < ne) :
    ∑ j ∈ Finset.range (6 * ne), jacobianSparsity ks r j =
      if k1 = k2 then 6 else 12 := by
  have hrow : ∀ j, jacobianSparsity ks r j =
      if (6 * k1 ≤ j ∧ j < 6 * (k1 + 1)) ∨ (6 * k2 ≤ j ∧ j < 6 * (k2 + 1)) then (1 : ℚ)
      else 0 := fun j => jacobianSparsity_row ks r j k1 k2 h
  have hfilter : (Finset.range (6 * ne)).filter
      (fun j => (6 * k1 ≤ j ∧ j < 6 * (k1 + 1)) ∨ (6 * k2 ≤ j ∧ j < 6 * (k2 + 1))) =
      Finset.Ico (6 * k1) (6 * (k1 + 1)) ∪ Finset.Ico (6 * k2) (6 * (k2 + 1)) := by
    ext j
    simp only [Finset.mem_filter, Finset.mem_range, Finset.mem_union, Finset.mem_Ico]
    omega
  simp only [hrow]
  rw [Finset.sum_boole, hfilter]
  by_cases hk : k1 = k2
  · subst hk
    rw [Finset.union_self, Nat.card_Ico, show 6 * (k1 + 1) - 6 * k1 = 6 by omega]
    simp
  · have hdisj : Disjoint (Finset.Ico (6 * k1) (6 * (k1 + 1)))
        (Finset.Ico (6 * k2) (6 * (k2 + 1))) := by
      rw [Finset.disjoint_left]
      intro j hj hj2
      simp only [Finset.mem_Ico] at hj hj2
      omega
    rw [Finset.card_union_of_disjoint hdisj, Nat.card_Ico, Nat.card_Ico,
      show 6 * (k1 + 1) - 6 * k1 = 6 by omega, show 6 * (k2 + 1) - 6 * k2 = 6 by omega]
    simp [hk]

end ConstraintSolver

namespace ConstraintSolver

theorem kindOK_safe (m1 m2 : Marker) (h : kindOK m1 m2 = true) : kindSafe m1 m2 = true := by
  cases m1 <;> cases m2 <;> simp_all [kindOK, kindSafe]

theorem wellFormed_safe (ne : ℕ) (cs : List Constraint) (h : WellFormed ne cs) :
    SafeDispatch ne cs := by
  intro c hc
  obtain ⟨h1, h2, h3⟩ := h c hc
  exact ⟨h1, h2, fun p hp => kindOK_safe p.1 p.2 (h3 p hp)⟩

theorem termOf_eq_specTerm (t1 t2 : Trsf) (m1 m2 : Marker) (h : kindOK m1 m2 = true) :
    termOf t1 t2 m1 m2 = specTerm t1 t2 m1 m2 := by
  cases m1 <;> cases m2 <;>
    simp_all [kindOK, termOf, specTerm, modulus, euclDist, xyzSub]

theorem sq_sum_zero_iff (u v : V3) :
    (u.x - v.x) ^ 2 + (u.y - v.y) ^ 2 + (u.z - v.z) ^ 2 = 0 ↔ u = v := by
  constructor
  · intro h
    have h1 : u.x - v.x = 0 := by
      nlinarith [sq_nonneg (u.x - v.x), sq_nonneg (u.y - v.y), sq_nonneg (u.z - v.z)]
    have h2 : u.y - v.y = 0 := by
      nlinarith [sq_nonneg (u.x - v.x), sq_nonneg (u.y - v.y), sq_nonneg (u.z - v.z)]
    have h3 : u.z - v.z = 0 := by
      nlinarith [sq_nonneg (u.x - v.x), sq_nonneg (u.y - v.y), sq_nonneg (u.z - v.z)]
    cases u; cases v
    simp only [V3.mk.injEq]
    constructor
    · linarith [sub_eq_zero.mp h1]
    constructor
    · linarith [sub_eq_zero.mp h2]
    · linarith [sub_eq_zero.mp h3]
  · intro h
    subst h
    ring

theorem euclDist_nonneg (u v : V3) : 0 ≤ euclDist u v :=
  Real.sqrt_nonneg _

theorem euclDist_eq_zero_iff (u v : V3) : euclDist u v = 0 ↔ u = v := by
  rw [euclDist, Real.sqrt_eq_zero']
  rw [show (((u.x - v.x) ^ 2 + (u.y - v.y) ^ 2 + (u.z - v.z) ^ 2 : ℚ) : ℝ) ≤ 0 ↔
      ((u.x - v.x) ^ 2 + (u.y - v.y) ^ 2 + (u.z - v.z) ^ 2 : ℚ) ≤ 0 from by
    exact_mod_cast Iff.rfl]
  constructor
  · intro h
    have h0 : (0 : ℚ) ≤ (u.x - v.x) ^ 2 + (u.y - v.y) ^ 2 + (u.z - v.z) ^ 2 := by positivity
    exact (sq_sum_zero_iff u v).mp (le_antisymm h h0)
  · intro h
    rw [(sq_sum_zero_iff u v).mpr h]

theorem entityTransform_congr (x1 x2 : ℕ → ℚ) (k : ℕ)
    (h : ∀ j, 6 * k ≤ j → j < 6 * (k + 1) → x1 j = x2 j) :
    entityTransform x1 k = entityTransform x2 k := by
  unfold entityTransform
  rw [h (6 * k) (by omega) (by omega), h (6 * k + 1) (by omega) (by omega),
    h (6 * k + 2) (by omega) (by omega), h (6 * k + 3) (by omega) (by omega),
    h (6 * k + 4) (by omega) (by omega), h (6 * k + 5) (by omega) (by omega)]

/-- An optimizer that returns the initial vector unchanged; on an empty
residual vector every parameter vector is a global minimizer of the (empty)
sum of squares, so this optimizer satisfies the boundary contract of spec
section 6 there. -/
def idOpt : Optimizer := fun _ x0 _ => .ok x0

end ConstraintSolver

namespace ConstraintSolver

/-- C10: for all finite `(a, b, c)` the w-component of the quaternion built
by `_build_transform` is `(1 - m) / (m + 1)` with `m = a² + b² + c² ≥ 0` and
lies in the half-open interval `(-1, 1]`; hence `1 + w ≠ 0` and applying the
decoding formula `alpha = (1 - w) / (1 + w)` to a pose produced by the
encoder never divides by zero: the 180-degree singularity is unreachable
from the encoder's outputs. -/
theorem c10_w_component_range (x y z a b c : ℚ) :
    (build_transform x y z a b c).q.w
        = (1 - (a ^ 2 + b ^ 2 + c ^ 2)) / ((a ^ 2 + b ^ 2 + c ^ 2) + 1) ∧
    -1 < (build_transform x y z a b c).q.w ∧
    (build_transform x y z a b c).q.w ≤ 1 ∧
    1 + (build_transform x y z a b c).q.w ≠ 0 ∧
    ∃ d, locToDOF6 (build_transform x y z a b c) = .ok d := by
  have hw : (build_transform x y z a b c).q.w
      = (1 - (a ^ 2 + b ^ 2 + c ^ 2)) / ((a ^ 2 + b ^ 2 + c ^ 2) + 1) := rfl
  set m := a ^ 2 + b ^ 2 + c ^ 2 with hm
  have hm0 : 0 ≤ m := by positivity
  have hm1 : 0 < m + 1 := by positivity
  have hlt : -1 < (1 - m) / (m + 1) := by
    rw [lt_div_iff₀ hm1]
    linarith
  have hle : (1 - m) / (m + 1) ≤ 1 := by
    rw [div_le_one hm1]
    linarith
  have hne : 1 + (build_transform x y z a b c).q.w ≠ 0 := by
    rw [hw]
    have : 0 < 1 + (1 - m) / (m + 1) := by linarith
    linarith
  refine ⟨hw, by rw [hw]; exact hlt, by rw [hw]; exact hle, hne, ?_⟩
  exact ⟨⟨(build_transform x y z a b c).v.x, (build_transform x y z a b c).v.y,
    (build_transform x y z a b c).v.z,
    ((1 - (build_transform x y z a b c).q.w) / (1 + (build_transform x y z a b c).q.w) + 1)
      * (build_transform x y z a b c).q.x / 2,
    ((1 - (build_transform x y z a b c).q.w) / (1 + (build_transform x y z a b c).q.w) + 1)
      * (build_transform x y z a b c).q.y / 2,
    ((1 - (build_transform x y z a b c).q.w) / (1 + (build_transform x y z a b c).q.w) + 1)
      * (build_transform x y z a b c).q.z / 2⟩, by rw [locToDOF6, if_neg hne]⟩

/-- C4 counterexample: at `(a, b, c) = (1, 0, 0)` the quaternion built by
`_build_transform` is `(2, 0, 0, 0)`, whose square norm is `4`, not `1` —
the claim that the encoder's quaternion always has unit norm is false. -/
theorem c4_counterexample :
    (build_transform 0 0 0 1 0 0).q = ⟨2, 0, 0, 0⟩ ∧
    squareNorm (build_transform 0 0 0 1 0 0).q = 4 ∧
    squareNorm (build_transform 0 0 0 1 0 0).q ≠ 1 := by
  refine ⟨by norm_num [build_transform], by norm_num [build_transform, squareNorm], ?_⟩
  norm_num [build_transform, squareNorm]

/-- C4 amended: the quaternion built by `_build_transform` has unit square
norm exactly when `m = a² + b² + c² = 0` (the identity branch); for `m ≠ 0`
its square norm is `4/m + ((1-m)/(m+1))²`, which is always strictly greater
than `1`. -/
theorem c4_square_norm (x y z a b c : ℚ) :
    (a ^ 2 + b ^ 2 + c ^ 2 = 0 → squareNorm (build_transform x y z a b c).q = 1) ∧
    (a ^ 2 + b ^ 2 + c ^ 2 ≠ 0 →
      squareNorm (build_transform x y z a b c).q
        = 4 / (a ^ 2 + b ^ 2 + c ^ 2)
          + ((1 - (a ^ 2 + b ^ 2 + c ^ 2)) / ((a ^ 2 + b ^ 2 + c ^ 2) + 1)) ^ 2 ∧
      1 < squareNorm (build_transform x y z a b c).q) := by
  constructor
  · intro h0
    have ha : a = 0 := by nlinarith [sq_nonneg a, sq_nonneg b, sq_nonneg c]
    have hb : b = 0 := by nlinarith [sq_nonneg a, sq_nonneg b, sq_nonneg c]
    have hc : c = 0 := by nlinarith [sq_nonneg a, sq_nonneg b, sq_nonneg c]
    subst ha; subst hb; subst hc
    norm_num [build_transform, squareNorm]
  · intro hm
    have hmpos : 0 < a ^ 2 + b ^ 2 + c ^ 2 :=
      lt_of_le_of_ne (by positivity) (Ne.symm hm)
    have heq : squareNorm (build_transform x y z a b c).q
        = 4 / (a ^ 2 + b ^ 2 + c ^ 2)
          + ((1 - (a ^ 2 + b ^ 2 + c ^ 2)) / ((a ^ 2 + b ^ 2 + c ^ 2) + 1)) ^ 2 := by
      have hm1 : (a ^ 2 + b ^ 2 + c ^ 2) + 1 ≠ 0 := by positivity
      simp only [build_transform, squareNorm, if_pos hm, ite_not]
      field_simp
      ring
    refine ⟨heq, ?_⟩
    rw [heq]
    have hkey : 4 / (a ^ 2 + b ^ 2 + c ^ 2)
        + ((1 - (a ^ 2 + b ^ 2 + c ^ 2)) / ((a ^ 2 + b ^ 2 + c ^ 2) + 1)) ^ 2
        = 1 + (4 + 8 * (a ^ 2 + b ^ 2 + c ^ 2))
            / ((a ^ 2 + b ^ 2 + c ^ 2) * ((a ^ 2 + b ^ 2 + c ^ 2) + 1) ^ 2) := by
      have hm1 : (a ^ 2 + b ^ 2 + c ^ 2) + 1 ≠ 0 := by positivity
      field_simp
      ring
    rw [hkey]
    have : 0 < (4 + 8 * (a ^ 2 + b ^ 2 + c ^ 2))
        / ((a ^ 2 + b ^ 2 + c ^ 2) * ((a ^ 2 + b ^ 2 + c ^ 2) + 1) ^ 2) := by positivity
    linarith

end ConstraintSolver

namespace ConstraintSolver

/-- C1: evaluation of the code at a failing input.  The pose with translation
`(1, 2, 3)` and unit rotation quaternion `(3/5, 0, 0, 4/5)` (rotation angle
about 74 degrees, well below 180, with `w = 4/5 > -1`) decodes to the DOF6
`(1, 2, 3, 1/3, 0, 0)`; re-encoding builds the quaternion `(6, 0, 0, 4/5)`,
which is not a rescaling of the original: the rebuilt transform moves the
direction `(0, 1, 0)` to `(0, -221/229, 60/229)` while the original pose
moves it to `(0, 7/25, 24/25)`.  The translation is reproduced but the
rotation is not, so `encode(decode(pose))` does not reproduce the pose. -/
theorem c1_roundtrip_fails :
    squareNorm ⟨3/5, 0, 0, 4/5⟩ = 1 ∧ (-1 : ℚ) < 4/5 ∧
    locToDOF6 ⟨⟨1, 2, 3⟩, ⟨3/5, 0, 0, 4/5⟩⟩ = .ok ⟨1, 2, 3, 1/3, 0, 0⟩ ∧
    build_transform 1 2 3 (1/3) 0 0 = ⟨⟨1, 2, 3⟩, ⟨6, 0, 0, 4/5⟩⟩ ∧
    (build_transform 1 2 3 (1/3) 0 0).v = ⟨1, 2, 3⟩ ∧
    rotApply (build_transform 1 2 3 (1/3) 0 0).q ⟨0, 1, 0⟩ = ⟨0, -221/229, 60/229⟩ ∧
    rotApply ⟨3/5, 0, 0, 4/5⟩ ⟨0, 1, 0⟩ = ⟨0, 7/25, 24/25⟩ ∧
    rotApply (build_transform 1 2 3 (1/3) 0 0).q ⟨0, 1, 0⟩
      ≠ rotApply ⟨3/5, 0, 0, 4/5⟩ ⟨0, 1, 0⟩ := by
  refine ⟨by norm_num [squareNorm], by norm_num, by norm_num [locToDOF6],
    by norm_num [build_transform], by norm_num [build_transform],
    by norm_num [build_transform, rotApply, squareNorm],
    by norm_num [rotApply, squareNorm], ?_⟩
  rw [show (build_transform 1 2 3 (1/3) 0 0).q = ⟨6, 0, 0, 4/5⟩ from by
    norm_num [build_transform]]
  norm_num [rotApply, squareNorm]

/-- C5 counterexample: the unit quaternion `(0, 0, 0, -1)` (the spec's
"rotation exactly 180 degrees, w = -1" input) makes construction itself
raise `ZeroDivisionError` — Python float division by zero raises instead of
propagating a non-finite value — so construction does fail on this input
and the fallout is an exception, not non-finite values. -/
theorem c5_counterexample :
    squareNorm ⟨0, 0, 0, -1⟩ = 1 ∧
    decodeAll [⟨⟨0, 0, 0⟩, ⟨0, 0, 0, -1⟩⟩] = .error .zeroDivision := by
  constructor
  · norm_num [squareNorm]
  · norm_num [decodeAll, locToDOF6]

/-- C5 amended: construction (decoding every initial pose with
`_locToDOF6`) completes without raising exactly when no pose's quaternion
has `w = -1`; when some pose has `w = -1` construction raises
`ZeroDivisionError` (it does not propagate non-finite values). -/
theorem c5_construction (ents : List Trsf) :
    ((∀ p ∈ ents, p.q.w ≠ -1) → ∃ ds, decodeAll ents = .ok ds) ∧
    ((∃ p ∈ ents, p.q.w = -1) → decodeAll ents = .error .zeroDivision) := by
  constructor
  · intro h
    induction ents with
    | nil => exact ⟨[], rfl⟩
    | cons p rest ih =>
        have hp : 1 + p.q.w ≠ 0 := by
          have := h p (List.mem_cons_self p rest)
          intro hc
          exact this (by linarith)
        obtain ⟨ds, hds⟩ := ih fun q hq => h q (List.mem_cons_of_mem p hq)
        simp only [decodeAll, locToDOF6, if_neg hp, hds]
        exact ⟨_, rfl⟩
  · intro h
    induction ents with
    | nil => simp at h
    | cons p rest ih =>
        by_cases hp : 1 + p.q.w = 0
        · rw [decodeAll, locToDOF6, if_pos hp]
        · have hrest : ∃ q ∈ rest, q.q.w = -1 := by
            obtain ⟨q, hq, hqw⟩ := h
            rcases List.mem_cons.mp hq with rfl | hq2
            · exact absurd (by linarith : 1 + q.q.w = 0) hp
            · exact ⟨q, hq2, hqw⟩
          rw [decodeAll, locToDOF6, if_neg hp, ih hrest]

/-- C6: evaluation of the code at a failing input.  One entity with initial
pose translation `(1, 2, 3)` and unit rotation quaternion `(3/5, 0, 0, 4/5)`,
no constraints.  With an optimizer that returns the initial vector unchanged
(on the empty residual every vector is a global minimizer, so this satisfies
the spec's optimizer contract), `solve` completes without error — but the
returned pose's rotation differs from the initial one: the returned
quaternion `(6, 0, 0, 4/5)` moves direction `(0, 1, 0)` to
`(0, -221/229, 60/229)` whereas the initial rotation moves it to
`(0, 7/25, 24/25)`. -/
theorem c6_zero_constraints :
    solve idOpt [⟨⟨1, 2, 3⟩, ⟨3/5, 0, 0, 4/5⟩⟩] []
      = .ok [⟨⟨1, 2, 3⟩, ⟨6, 0, 0, 4/5⟩⟩] ∧
    rotApply ⟨6, 0, 0, 4/5⟩ ⟨0, 1, 0⟩ ≠ rotApply ⟨3/5, 0, 0, 4/5⟩ ⟨0, 1, 0⟩ ∧
    (⟨⟨1, 2, 3⟩, ⟨6, 0, 0, 4/5⟩⟩ : Trsf) ≠ ⟨⟨1, 2, 3⟩, ⟨3/5, 0, 0, 4/5⟩⟩ := by
  refine ⟨?_, by norm_num [rotApply, squareNorm], by norm_num⟩
  norm_num [solve, decodeAll, locToDOF6, ravel, cost, rowsOf, entityTransform,
    build_transform, dofComp, idOpt, List.range_succ]

end ConstraintSolver

namespace ConstraintSolver

/-- C2: when every constraint's zipped marker pairs share kind (and entity
indices are in range), the cost function raises nothing and its `i`-th
residual is the sum, over the zipped marker pairs of the `i`-th constraint,
of the Euclidean distance between the two world-space points for a point
pair and the raw dot product of the two rotated directions for a direction
pair; a point pair's term is non-negative and zero exactly when the two
world points coincide, and a direction pair's term is the raw dot product
(not one minus it). -/
theorem c2_residual_formula :
    (∀ (ne : ℕ) (cs : List Constraint) (x : ℕ → ℚ) (i k1 k2 : ℕ)
        (ms1 ms2 : List Marker),
      WellFormed ne cs → cs.get? i = some ((k1, k2), (ms1, ms2)) →
      ∃ rows, cost ne cs x = .ok rows ∧
        rows.get? i = some (((ms1.zip ms2).map
          (fun p => specTerm (entityTransform x k1) (entityTransform x k2) p.1 p.2)).sum)) ∧
    (∀ (t1 t2 : Trsf) (p1 p2 : V3),
      specTerm t1 t2 (.pnt p1) (.pnt p2)
          = euclDist (pntTransformed t1 p1) (pntTransformed t2 p2) ∧
      0 ≤ specTerm t1 t2 (.pnt p1) (.pnt p2) ∧
      (specTerm t1 t2 (.pnt p1) (.pnt p2) = 0
          ↔ pntTransformed t1 p1 = pntTransformed t2 p2)) ∧
    (∀ (t1 t2 : Trsf) (d1 d2 : V3),
      specTerm t1 t2 (.dir d1) (.dir d2)
          = ((dot (dirTransformed t1 d1) (dirTransformed t2 d2) : ℚ) : ℝ)) := by
  refine ⟨?_, ?_, ?_⟩
  · intro ne cs x i k1 k2 ms1 ms2 hwf hi
    refine ⟨cs.map (rowValue x), cost_ok ne cs x (wellFormed_safe ne cs hwf), ?_⟩
    rw [List.get?_map, hi]
    have hmem : ((k1, k2), (ms1, ms2)) ∈ cs := List.get?_mem hi
    have hkinds := (hwf _ hmem).2.2
    simp only [Option.map_some']
    congr 1
    unfold rowValue
    apply congrArg
    apply List.map_congr_left
    intro p hp
    exact termOf_eq_specTerm _ _ p.1 p.2 (hkinds p hp)
  · intro t1 t2 p1 p2
    refine ⟨rfl, euclDist_nonneg _ _, ?_⟩
    exact euclDist_eq_zero_iff _ _
  · intro t1 t2 d1 d2
    rfl

/-- C2 witness data and application. -/
theorem c2_witness :
    WellFormed 2 [((0, 1), ([.pnt ⟨0, 0, 0⟩], [.pnt ⟨1, 0, 0⟩]))] ∧
    ∃ rows, cost 2 [((0, 1), ([.pnt ⟨0, 0, 0⟩], [.pnt ⟨1, 0, 0⟩]))] (fun _ => 0) = .ok rows ∧
      rows.get? 0 = some ((([Marker.pnt ⟨0, 0, 0⟩].zip [Marker.pnt ⟨1, 0, 0⟩]).map
        (fun p => specTerm (entityTransform (fun _ => 0) 0)
          (entityTransform (fun _ => 0) 1) p.1 p.2)).sum) := by
  have hwf : WellFormed 2 [((0, 1), ([.pnt ⟨0, 0, 0⟩], [.pnt ⟨1, 0, 0⟩]))] := by
    intro c hc
    simp only [List.mem_singleton] at hc
    subst hc
    refine ⟨by norm_num, by norm_num, ?_⟩
    intro p hp
    simp only [List.zip_cons_cons, List.zip_nil_right, List.mem_singleton] at hp
    subst hp
    rfl
  exact ⟨hwf, c2_residual_formula.1 2 _ (fun _ => 0) 0 0 1 _ _ hwf rfl⟩

end ConstraintSolver

namespace ConstraintSolver

/-- C9: a constraint whose marker sequences have unequal lengths raises no
error during residual evaluation: `zip` silently truncates to the shorter
sequence, exactly `min` of the two lengths pairs contribute to the
constraint's residual, and the excess markers of the longer sequence are
ignored. -/
theorem c9_zip_truncation (ne : ℕ) (cs : List Constraint) (x : ℕ → ℚ)
    (i k1 k2 : ℕ) (ms1 ms2 : List Marker)
    (hwf : WellFormed ne cs) (hi : cs.get? i = some ((k1, k2), (ms1, ms2)))
    (hlen : ms1.length ≠ ms2.length) :
    (ms1.zip ms2).length = min ms1.length ms2.length ∧
    ∃ rows, cost ne cs x = .ok rows ∧
      rows.get? i = some (((ms1.zip ms2).map
        (fun p => termOf (entityTransform x k1) (entityTransform x k2) p.1 p.2)).sum) := by
  refine ⟨List.length_zip ms1 ms2, ?_⟩
  refine ⟨cs.map (rowValue x), cost_ok ne cs x (wellFormed_safe ne cs hwf), ?_⟩
  rw [List.get?_map, hi]
  rfl

/-- C9 witness: a constraint pairing two markers against one; the single
zipped pair contributes and no error is raised. -/
theorem c9_witness :
    ([Marker.pnt ⟨0, 0, 0⟩, Marker.pnt ⟨5, 5, 5⟩].zip [Marker.pnt ⟨1, 0, 0⟩]).length
        = min 2 1 ∧
    ∃ rows, cost 2 [((0, 1), ([.pnt ⟨0, 0, 0⟩, .pnt ⟨5, 5, 5⟩], [.pnt ⟨1, 0, 0⟩]))]
        (fun _ => 0) = .ok rows ∧
      rows.get? 0 = some ((([Marker.pnt ⟨0, 0, 0⟩, Marker.pnt ⟨5, 5, 5⟩].zip
          [Marker.pnt ⟨1, 0, 0⟩]).map
        (fun p => termOf (entityTransform (fun _ => 0) 0)
          (entityTransform (fun _ => 0) 1) p.1 p.2)).sum) := by
  have hwf : WellFormed 2 [((0, 1), ([.pnt ⟨0, 0, 0⟩, .pnt ⟨5, 5, 5⟩], [.pnt ⟨1, 0, 0⟩]))] := by
    intro c hc
    simp only [List.mem_singleton] at hc
    subst hc
    refine ⟨by norm_num, by norm_num, ?_⟩
    intro p hp
    simp only [List.zip_cons_cons, List.zip_nil_right, List.mem_singleton] at hp
    subst hp
    rfl
  have h := c9_zip_truncation 2 _ (fun _ => 0) 0 0 1 _ _ hwf rfl (by norm_num)
  exact h

/-- C8: the sparsity pattern over-approximates the residual's dependencies.
For the constraint at row `i` with pair `(k1, k2)`, any two parameter
vectors that agree on every column marked by the sparsity matrix's row `i`
produce the same `i`-th residual component: residual row `i` depends on no
parameter outside the marked columns. -/
theorem c8_sparsity_conservative (ne : ℕ) (cs : List Constraint) (x1 x2 : ℕ → ℚ)
    (i k1 k2 : ℕ) (ms : List Marker × List Marker)
    (hwf : WellFormed ne cs) (hi : cs.get? i = some ((k1, k2), ms))
    (hagree : ∀ j, jacobianSparsity (cs.map Prod.fst) i j ≠ 0 → x1 j = x2 j) :
    ∃ r1 r2, cost ne cs x1 = .ok r1 ∧ cost ne cs x2 = .ok r2 ∧
      r1.get? i = r2.get? i := by
  have hkey : (cs.map Prod.fst).get? i = some (k1, k2) := by
    rw [List.get?_map, hi]
    rfl
  have hrow := fun j => jacobianSparsity_row (cs.map Prod.fst) i j k1 k2 hkey
  have hb1 : ∀ j, 6 * k1 ≤ j → j < 6 * (k1 + 1) → x1 j = x2 j := by
    intro j hj1 hj2
    apply hagree
    rw [hrow j, if_pos (Or.inl ⟨hj1, hj2⟩)]
    norm_num
  have hb2 : ∀ j, 6 * k2 ≤ j → j < 6 * (k2 + 1) → x1 j = x2 j := by
    intro j hj1 hj2
    apply hagree
    rw [hrow j, if_pos (Or.inr ⟨hj1, hj2⟩)]
    norm_num
  refine ⟨cs.map (rowValue x1), cs.map (rowValue x2),
    cost_ok ne cs x1 (wellFormed_safe ne cs hwf),
    cost_ok ne cs x2 (wellFormed_safe ne cs hwf), ?_⟩
  rw [List.get?_map, List.get?_map, hi]
  simp only [Option.map_some']
  congr 1
  unfold rowValue
  rw [entityTransform_congr x1 x2 k1 hb1, entityTransform_congr x1 x2 k2 hb2]

/-- C8 witness data and application. -/
theorem c8_witness :
    WellFormed 2 [((0, 1), ([.dir ⟨1, 0, 0⟩], [.dir ⟨0, 1, 0⟩]))] ∧
    ∃ r1 r2, cost 2 [((0, 1), ([.dir ⟨1, 0, 0⟩], [.dir ⟨0, 1, 0⟩]))] (fun _ => 0) = .ok r1 ∧
      cost 2 [((0, 1), ([.dir ⟨1, 0, 0⟩], [.dir ⟨0, 1, 0⟩]))] (fun _ => 0) = .ok r2 ∧
      r1.get? 0 = r2.get? 0 := by
  have hwf : WellFormed 2 [((0, 1), ([.dir ⟨1, 0, 0⟩], [.dir ⟨0, 1, 0⟩]))] := by
    intro c hc
    simp only [List.mem_singleton] at hc
    subst hc
    refine ⟨by norm_num, by norm_num, ?_⟩
    intro p hp
    simp only [List.zip_cons_cons, List.zip_nil_right, List.mem_singleton] at hp
    subst hp
    rfl
  refine ⟨hwf, c8_sparsity_conservative 2 _ (fun _ => 0) (fun _ => 0) 0 0 1 _ hwf rfl ?_⟩
  intro j hj
  rfl

end ConstraintSolver

namespace ConstraintSolver

/-- C3 counterexample: a constraint whose single marker pair has a Point
first and a Direction second (mismatched kinds) raises nothing — the cost
function returns a residual vector, and `solve` completes normally,
returning poses — because `_cost` dispatches on the type of `m1` only and
the point branch silently accepts a direction as `m2`.  No
MarkerKindMismatch propagates out of `solve`. -/
theorem c3_counterexample :
    cost 2 [((0, 1), ([.pnt ⟨0, 0, 0⟩], [.dir ⟨1, 0, 0⟩]))] (fun _ => 0) = .ok [1] ∧
    solve idOpt [⟨⟨0, 0, 0⟩, ⟨0, 0, 0, 1⟩⟩, ⟨⟨0, 0, 0⟩, ⟨0, 0, 0, 1⟩⟩]
        [((0, 1), ([.pnt ⟨0, 0, 0⟩], [.dir ⟨1, 0, 0⟩]))]
      = .ok [⟨⟨0, 0, 0⟩, ⟨0, 0, 0, 1⟩⟩, ⟨⟨0, 0, 0⟩, ⟨0, 0, 0, 1⟩⟩] := by
  constructor
  · norm_num [cost, rowsOf, costRow, sumTerms, pairTerm, List.range_succ,
      entityTransform, build_transform, rotApply, squareNorm, pntTransformed,
      dirTransformed, xyzSub, modulus]
  · norm_num [solve, decodeAll, locToDOF6, ravel, cost, rowsOf, costRow, sumTerms,
      pairTerm, entityTransform, build_transform, dofComp, idOpt, List.range_succ,
      rotApply, squareNorm, pntTransformed, dirTransformed, xyzSub, modulus]

/-- C3 amended: `_cost`'s kind checking is one-sided, on `m1` only.
First conjunct: every constraint set whose zipped pairs the one-sided
dispatch accepts — point-point, point-direction, or direction-direction —
evaluates without error, so a (Point, Direction) mismatch raises nothing.
Second conjunct: the exact error characterization of one pair's
evaluation — it succeeds with the branch's value precisely on the accepted
pairs; it raises `NotImplementedError` (the spec's MarkerKindMismatch)
precisely when `m1` is neither kind; and it raises a binding type error
precisely in the remaining cases, namely `m1` a Point with `m2` neither
kind, or `m1` a Direction with `m2` not a Direction.  Third conjunct: a
raising pair makes residual evaluation raise that error synchronously, for
every parameter vector.  Fourth conjunct: a residual-evaluation error
propagates out of `solve` immediately with no result. -/
theorem c3_kind_dispatch :
    (∀ (ne : ℕ) (cs : List Constraint) (x : ℕ → ℚ),
      SafeDispatch ne cs → ∃ rows, cost ne cs x = .ok rows) ∧
    (∀ (t1 t2 : Trsf) (m1 m2 : Marker),
      (pairTerm t1 t2 m1 m2 = .ok (termOf t1 t2 m1 m2) ↔ kindSafe m1 m2 = true) ∧
      (pairTerm t1 t2 m1 m2 = .error .notImplemented ↔ m1 = .other) ∧
      (pairTerm t1 t2 m1 m2 = .error .typeError ↔
        kindSafe m1 m2 = false ∧ m1 ≠ .other)) ∧
    (∀ (ne k1 k2 : ℕ) (m1 m2 : Marker) (ms1 ms2 : List Marker) (x : ℕ → ℚ) (e : PyErr),
      k1 < ne → k2 < ne →
      pairTerm (entityTransform x k1) (entityTransform x k2) m1 m2 = .error e →
      cost ne [((k1, k2), (m1 :: ms1, m2 :: ms2))] x = .error e) ∧
    (∀ (opt : Optimizer) (ents : List Trsf) (cs : List Constraint)
        (ds : List DOF6) (e : PyErr),
      decodeAll ents = .ok ds → cost ents.length cs (ravel ds) = .error e →
      solve opt ents cs = .error e) := by
  refine ⟨?_, ?_, ?_, ?_⟩
  · intro ne cs x hs
    exact ⟨cs.map (rowValue x), cost_ok ne cs x hs⟩
  · intro t1 t2 m1 m2
    cases m1 <;> cases m2 <;> simp [pairTerm, termOf, kindSafe]
  · intro ne k1 k2 m1 m2 ms1 ms2 x e hk1 hk2 hpair
    unfold cost rowsOf costRow
    rw [range_map_get ne k1 (entityTransform x) hk1,
      range_map_get ne k2 (entityTransform x) hk2]
    simp only [List.zip_cons_cons, sumTerms, hpair]
  · intro opt ents cs ds e hds hcost
    unfold solve
    simp only [hds]
    rw [hcost]

/-- C3 application of the amended statement at concrete inputs. -/
theorem c3_witness :
    (∃ rows, cost 2 [((0, 1), ([.pnt ⟨0, 0, 0⟩], [.dir ⟨1, 0, 0⟩]))] (fun _ => 0)
      = .ok rows) ∧
    pairTerm (entityTransform (fun _ => 0) 0) (entityTransform (fun _ => 0) 1)
      (.pnt ⟨0, 0, 0⟩) .other = .error .typeError ∧
    cost 2 [((0, 1), ([.other], [.pnt ⟨0, 0, 0⟩]))] (fun _ => 0)
      = .error .notImplemented ∧
    cost 2 [((0, 1), ([.dir ⟨1, 0, 0⟩], [.pnt ⟨0, 0, 0⟩]))] (fun _ => 0)
      = .error .typeError ∧
    solve idOpt [⟨⟨0, 0, 0⟩, ⟨0, 0, 0, 1⟩⟩, ⟨⟨0, 0, 0⟩, ⟨0, 0, 0, 1⟩⟩]
        [((0, 1), ([.other], [.pnt ⟨0, 0, 0⟩]))]
      = .error .notImplemented := by
  have hsafe : SafeDispatch 2 [((0, 1), ([.pnt ⟨0, 0, 0⟩], [.dir ⟨1, 0, 0⟩]))] := by
    intro c hc
    simp only [List.mem_singleton] at hc
    subst hc
    refine ⟨by norm_num, by norm_num, ?_⟩
    intro p hp
    simp only [List.zip_cons_cons, List.zip_nil_right, List.mem_singleton] at hp
    subst hp
    rfl
  have hdec : decodeAll [(⟨⟨0, 0, 0⟩, ⟨0, 0, 0, 1⟩⟩ : Trsf), ⟨⟨0, 0, 0⟩, ⟨0, 0, 0, 1⟩⟩]
      = .ok [⟨0, 0, 0, 0, 0, 0⟩, ⟨0, 0, 0, 0, 0, 0⟩] := by
    norm_num [decodeAll, locToDOF6]
  have h1 := c3_kind_dispatch.1 2 _ (fun _ => 0) hsafe
  have hpo := (c3_kind_dispatch.2.1 (entityTransform (fun _ => 0) 0)
    (entityTransform (fun _ => 0) 1) (.pnt ⟨0, 0, 0⟩) .other).2.2.mpr ⟨rfl, by simp⟩
  have h2 := c3_kind_dispatch.2.2.1 2 0 1 .other (.pnt ⟨0, 0, 0⟩) [] [] (fun _ => 0)
    .notImplemented (by norm_num) (by norm_num)
    ((c3_kind_dispatch.2.1 _ _ .other (.pnt ⟨0, 0, 0⟩)).2.1.mpr rfl)
  have h3 := c3_kind_dispatch.2.2.1 2 0 1 (.dir ⟨1, 0, 0⟩) (.pnt ⟨0, 0, 0⟩) [] []
    (fun _ => 0) .typeError (by norm_num) (by norm_num)
    ((c3_kind_dispatch.2.1 _ _ (.dir ⟨1, 0, 0⟩) (.pnt ⟨0, 0, 0⟩)).2.2.mpr ⟨rfl, by simp⟩)
  refine ⟨h1, hpo, h2, h3, ?_⟩
  apply c3_kind_dispatch.2.2.2 idOpt _ _ [⟨0, 0, 0, 0, 0, 0⟩, ⟨0, 0, 0, 0, 0, 0⟩]
    .notImplemented hdec
  have hx : ravel [(⟨0, 0, 0, 0, 0, 0⟩ : DOF6), ⟨0, 0, 0, 0, 0, 0⟩] = fun _ => 0 := by
    funext j
    unfold ravel
    generalize j / 6 = k
    generalize j % 6 = r
    have hg : List.getD [(⟨0, 0, 0, 0, 0, 0⟩ : DOF6), ⟨0, 0, 0, 0, 0, 0⟩] k ⟨0, 0, 0, 0, 0, 0⟩
        = ⟨0, 0, 0, 0, 0, 0⟩ := by
      rcases k with _ | _ | n <;> rfl
    rw [hg]
    rcases r with _ | _ | _ | _ | _ | _ | n <;> rfl
  rw [show [(⟨⟨0,0,0⟩,⟨0,0,0,1⟩⟩ : Trsf), ⟨⟨0,0,0⟩,⟨0,0,0,1⟩⟩].length = 2 from rfl, hx]
  exact h2

end ConstraintSolver

namespace ConstraintSolver

/-- C7: for the constraint at position `i` of the mapping's iteration order
with entity pair `(k1, k2)`, `k1, k2 < ne`, row `i` of the sparsity matrix
is `1` exactly on the columns of blocks `[6k1, 6k1+6)` and `[6k2, 6k2+6)`
and `0` elsewhere; the row sum over all `6*ne` columns is `6` when
`k1 = k2` and `12` otherwise; and entries outside the `(nc, 6*ne)` shape
are zero (rows at or beyond `nc`, columns at or beyond `6*ne`). -/
theorem c7_sparsity_pattern (ne : ℕ) (ks : List (ℕ × ℕ)) (i k1 k2 : ℕ)
    (hi : ks.get? i = some (k1, k2)) (h1 : k1 < ne) (h2 : k2 < ne) :
    (∀ j, jacobianSparsity ks i j
        = if (6 * k1 ≤ j ∧ j < 6 * (k1 + 1)) ∨ (6 * k2 ≤ j ∧ j < 6 * (k2 + 1)) then 1
          else 0) ∧
    (∑ j ∈ Finset.range (6 * ne), jacobianSparsity ks i j = if k1 = k2 then 6 else 12) ∧
    (∀ r c, ks.length ≤ r → jacobianSparsity ks r c = 0) ∧
    (∀ j, 6 * ne ≤ j → jacobianSparsity ks i j = 0) := by
  refine ⟨fun j => jacobianSparsity_row ks i j k1 k2 hi,
    jacobianSparsity_row_sum ks ne i k1 k2 hi h1 h2,
    fun r c hr => jacobianSparsity_zero_row ks r c hr, ?_⟩
  intro j hj
  rw [jacobianSparsity_row ks i j k1 k2 hi, if_neg]
  rintro (⟨ha, hb⟩ | ⟨ha, hb⟩) <;> omega

/-- C7 application at a concrete instance: two entities, one constraint
`(0, 1)`, whose sparsity row sums to 12. -/
theorem c7_witness :
    ([((0 : ℕ), (1 : ℕ))].get? 0 = some (0, 1)) ∧ (0 : ℕ) < 2 ∧ (1 : ℕ) < 2 ∧
    ∑ j ∈ Finset.range 12, jacobianSparsity [(0, 1)] 0 j = 12 := by
  refine ⟨rfl, by norm_num, by norm_num, ?_⟩
  have h := (c7_sparsity_pattern 2 [(0, 1)] 0 0 1 rfl (by norm_num) (by norm_num)).2.1
  norm_num at h
  exact h

/-- C4 application at concrete inputs: the identity branch at
`(a, b, c) = (0, 0, 0)` and the strict bound at `(a, b, c) = (1, 0, 0)`. -/
theorem c4_witness :
    ((0 : ℚ) ^ 2 + 0 ^ 2 + 0 ^ 2 = 0 ∧ squareNorm (build_transform 0 0 0 0 0 0).q = 1) ∧
    ((1 : ℚ) ^ 2 + 0 ^ 2 + 0 ^ 2 ≠ 0 ∧ 1 < squareNorm (build_transform 0 0 0 1 0 0).q) := by
  constructor
  · exact ⟨by norm_num, (c4_square_norm 0 0 0 0 0 0).1 (by norm_num)⟩
  · exact ⟨by norm_num, ((c4_square_norm 0 0 0 1 0 0).2 (by norm_num)).2⟩

/-- C5 application at concrete inputs: construction succeeds on a pose with
`w ≠ -1` and raises on a list containing a pose with `w = -1`. -/
theorem c5_witness :
    (∃ ds, decodeAll [⟨⟨1, 2, 3⟩, ⟨3/5, 0, 0, 4/5⟩⟩] = .ok ds) ∧
    decodeAll [⟨⟨0, 0, 0⟩, ⟨0, 0, 0, 1⟩⟩, ⟨⟨0, 0, 0⟩, ⟨0, 0, 0, -1⟩⟩]
      = .error .zeroDivision := by
  constructor
  · apply (c5_construction _).1
    intro p hp
    simp only [List.mem_singleton] at hp
    subst hp
    norm_num
  · exact (c5_construction _).2 ⟨⟨⟨0, 0, 0⟩, ⟨0, 0, 0, -1⟩⟩, by simp, rfl⟩

end ConstraintSolver
